import Mathlib

/-!
Shallow embedding of `pdb_color_generic.py` (score binner & PyMOL script
emitter). Machine floats are modelled by exact rationals, Python dicts by
insertion-ordered association lists, and fallible statements by `Except` /
`Option`. numpy helpers (`around`, `arange`, `median`, `floor(log10 _)`)
are embedded as executable rational functions.
-/

/-- Python `int(x)` on a float: truncation toward zero. -/
def truncQ (q : ℚ) : ℤ := if 0 ≤ q then ⌊q⌋ else ⌈q⌉

/-- Round-half-to-even to the nearest integer, the tie rule of numpy
`around`. -/
def roundHalfEvenZ (x : ℚ) : ℤ :=
  if x - ⌊x⌋ < 1/2 then ⌊x⌋
  else if 1/2 < x - ⌊x⌋ then ⌊x⌋ + 1
  else if ⌊x⌋ % 2 = 0 then ⌊x⌋ else ⌊x⌋ + 1

/-- numpy `around(x, decimals=d)` for `d ≥ 0`. -/
def npAround (x : ℚ) (d : ℕ) : ℚ := (roundHalfEvenZ (x * 10 ^ d) : ℚ) / 10 ^ d

/-- numpy `arange(start, stop, step)` in exact arithmetic: the list
`start + i * step` for `0 ≤ i < ⌈(stop - start)/step⌉` (for `step ≠ 0`;
numpy raises on a zero step, which callers below guard against). -/
def npArange (start stop step : ℚ) : List ℚ :=
  (List.range (⌈(stop - start) / step⌉).toNat).map (fun i : ℕ => start + (i : ℚ) * step)

/-- Insertion sort step, ascending. -/
def insertSorted (x : ℚ) : List ℚ → List ℚ
  | [] => [x]
  | y :: ys => if x ≤ y then x :: y :: ys else y :: insertSorted x ys

/-- Ascending sort (models numpy sorting inside `median`). -/
def sortQ (l : List ℚ) : List ℚ := l.foldr insertSorted []

/-- numpy `median`: middle element of the sorted list, or the mean of the
two middle elements for even length. -/
def npMedian (l : List ℚ) : ℚ :=
  if l.length % 2 = 1 then (sortQ l).getD (l.length / 2) 0
  else ((sortQ l).getD (l.length / 2 - 1) 0 + (sortQ l).getD (l.length / 2) 0) / 2

/-- Fuel-driven base-10 floor logarithm on naturals (`natLog10 n` is the
number of digits of `n` minus one, for `n ≥ 1`). -/
def natLog10Aux : ℕ → ℕ → ℕ
  | 0, _ => 0
  | fuel + 1, n => if n < 10 then 0 else natLog10Aux fuel (n / 10) + 1

/-- Base-10 floor logarithm on naturals. -/
def natLog10 (n : ℕ) : ℕ := natLog10Aux n n

/-- Fuel-driven base-10 ceiling logarithm on naturals. -/
def natClog10Aux : ℕ → ℕ → ℕ
  | 0, _ => 0
  | fuel + 1, n => if 1 < n then natClog10Aux fuel ((n + 9) / 10) + 1 else 0

/-- Base-10 ceiling logarithm on naturals. -/
def natClog10 (n : ℕ) : ℕ := natClog10Aux n n

/-- `int(numpy.floor(numpy.log10 q))` for a positive rational `q`:
for `q ≥ 1` the digit count of `⌊q⌋` minus one, otherwise the negated
ceiling logarithm of `⌈q⁻¹⌉`. -/
def floorLog10 (q : ℚ) : ℤ :=
  if 1 ≤ q then (natLog10 ⌊q⌋.toNat : ℤ) else -(natClog10 ⌈q⁻¹⌉.toNat : ℤ)

/-- The decimal count `abs(min([magnitude, 0]))` of line 179. -/
def decimalsOf (magnitude : ℤ) : ℕ := (min magnitude 0).natAbs

/-! ## Data model

`ScoreTable`: chain identifier → (residue index → score), insertion
ordered, duplicate writes overwrite in place (Python dict semantics). -/

abbrev ScoreDict := List (String × List (ℤ × ℚ))

/-- Python `d[k] = v` on an inner site dict: replace in place if the key
exists, else append at the end. -/
def upsertSite : List (ℤ × ℚ) → ℤ → ℚ → List (ℤ × ℚ)
  | [], k, v => [(k, v)]
  | (k', v') :: rest, k, v =>
      if k' = k then (k', v) :: rest else (k', v') :: upsertSite rest k v

/-- Python `rawscore_dict[chain][site] = score` on the outer dict. -/
def upsertChain : ScoreDict → String → ℤ → ℚ → ScoreDict
  | [], c, k, v => [(c, [(k, v)])]
  | (c', m) :: rest, c, k, v =>
      if c' = c then (c', upsertSite m k v) :: rest
      else (c', m) :: upsertChain rest c k v

/-! ## Score reader (`read_generic_data`, lines 57-87) -/

/-- Value of a decimal digit character. -/
def digitVal? (c : Char) : Option ℕ :=
  if '0' ≤ c ∧ c ≤ '9' then some (c.toNat - '0'.toNat) else none

/-- Parse a (possibly empty) all-digit run; `some 0` on the empty run,
`none` as soon as a non-digit appears. -/
def parseDigits? (cs : List Char) : Option ℕ :=
  cs.foldl
    (fun acc c =>
      match acc, digitVal? c with
      | some n, some d => some (n * 10 + d)
      | _, _ => none)
    (some 0)

/-- Models Python `float(s)` on plain decimal literals: surrounding
whitespace stripped, optional sign, digits with at most one decimal point
(`"1"`, `"3.7"`, `"-.5"`, `"2."`). Exponent forms and IEEE special values
are outside the model. -/
def pyFloat? (s : String) : Option ℚ :=
  let cs := s.trim.toList
  let sgn : ℚ := match cs with | '-' :: _ => -1 | _ => 1
  let body : List Char :=
    match cs with
    | '-' :: rest => rest
    | '+' :: rest => rest
    | _ => cs
  let ip := body.takeWhile (fun c => c != '.')
  match body.dropWhile (fun c => c != '.') with
  | [] =>
      if ip.isEmpty then none
      else (parseDigits? ip).map (fun n => sgn * (n : ℚ))
  | _ :: frac =>
      if frac.contains '.' then none
      else if ip.isEmpty ∧ frac.isEmpty then none
      else
        match parseDigits? ip, parseDigits? frac with
        | some n, some f => some (sgn * ((n : ℚ) + (f : ℚ) / 10 ^ frac.length))
        | _, _ => none

/-- Mutable state of the reading loop: the score table and the three
counters of lines 59-62. -/
structure ReadState where
  table : ScoreDict
  linecounter : ℕ
  foundscores : ℕ
  columnmax : ℕ
  deriving DecidableEq

def initReadState : ReadState := ⟨[], 0, 0, 0⟩

def indexErrMsg : String := "IndexError: list index out of range"

def floatErrMsg : String := "ValueError: could not convert string to float"

/-- `lsplits[int(chaincolumn)]` when a chain column is configured, else
the default chain (lines 77-80). -/
def chainOf (lsplits : List String) (chaincolumn : Option ℕ) (defaultchain : String) :
    Option String :=
  match chaincolumn with
  | some cc => lsplits[cc]?
  | none => some defaultchain

/-- One iteration of the reading loop (lines 64-82): strip, drop blank
and `#` lines, split, try `int(float(sitecol))` — a failed parse skips the
row silently — then `float(scorecol)` whose failure aborts the run, then
store under the chain. -/
def readStep (delim : String) (scorecolumn sitecolumn : ℕ) (chaincolumn : Option ℕ)
    (defaultchain : String) (st : ReadState) (rawline : String) : Except String ReadState :=
  let line := rawline.trim
  if line = "" then .ok st
  else if line.front = '#' then .ok st
  else
    let lsplits := line.splitOn delim
    let st1 : ReadState :=
      { st with linecounter := st.linecounter + 1,
                columnmax := max st.columnmax lsplits.length }
    match lsplits[sitecolumn]? with
    | none => .error indexErrMsg
    | some sitecol =>
      match pyFloat? sitecol with
      | none => .ok st1
      | some siteq =>
        match lsplits[scorecolumn]? with
        | none => .error indexErrMsg
        | some scorecol =>
          match pyFloat? scorecol with
          | none => .error floatErrMsg
          | some score =>
            match chainOf lsplits chaincolumn defaultchain with
            | none => .error indexErrMsg
            | some chain =>
              .ok { st1 with
                      table := upsertChain st1.table chain (truncQ siteq) score,
                      foundscores := st1.foundscores + 1 }

/-- The reading loop folded over the input lines; an exception aborts. -/
def readLines (delim : String) (scorecolumn sitecolumn : ℕ) (chaincolumn : Option ℕ)
    (defaultchain : String) : ReadState → List String → Except String ReadState
  | st, [] => .ok st
  | st, l :: ls =>
    match readStep delim scorecolumn sitecolumn chaincolumn defaultchain st l with
    | .error e => .error e
    | .ok st' => readLines delim scorecolumn sitecolumn chaincolumn defaultchain st' ls

def readerHeaderMsg : String := "# Reading scores"

def readerCountMsg : String := "# Counted lines with scores"

def readerNoScoresWarnMsg : String :=
  "# WARNING: No scores found, lines contained only 1 column, check -d"

/-- Diagnostic stream of `read_generic_data` as it reaches the end of the
file: the two unconditional informational lines (their interpolated
numbers omitted) and the single conditional warning of lines 84-86. The
loop body itself never writes: a skipped row produces nothing. -/
structure ReadResult where
  table : ScoreDict
  linecounter : ℕ
  foundscores : ℕ
  columnmax : ℕ
  stderrLines : List String
  deriving DecidableEq

/-- `read_generic_data` (lines 57-87) over the already-split lines of the
data file. -/
def read_generic_data (lines : List String) (delim : String) (scorecolumn : ℕ)
    (sitecolumn : ℕ) (chaincolumn : Option ℕ) (defaultchain : String) :
    Except String ReadResult :=
  match readLines delim scorecolumn sitecolumn chaincolumn defaultchain initReadState lines with
  | .error e => .error e
  | .ok st =>
    .ok ⟨st.table, st.linecounter, st.foundscores, st.columnmax,
         [readerHeaderMsg, readerCountMsg] ++
           (if st.foundscores = 0 ∧ st.columnmax < 2 then [readerNoScoresWarnMsg] else [])⟩

/-! ## Boundary derivation (`make_output_script`, lines 170-235) -/

/-- Default-bin selection of lines 186-233: an explicit override (line
187) always wins; otherwise bin 0 for all-non-negative data, 4 for data
spanning zero, 8 for all-non-positive data. -/
def defaultIndexOf (default_chain_grp : Option ℤ) (lowest_val highest_val : ℚ) : ℤ :=
  match default_chain_grp with
  | some k => k
  | none => if 0 ≤ lowest_val then 0 else if 0 < highest_val then 4 else 8

/-- Whether the value range triggers the decimal adjustment of line 197
(the source tests the raw `val_range`, not the rounded difference). -/
def magAdjusted (magnitude : ℤ) (val_range : ℚ) : ℤ :=
  if 1 < val_range ∧ val_range < 8 then magnitude - 1 else magnitude

/-- Bin boundaries of the all-non-negative branch (lines 202-207): nine
`arange` steps from the (possibly corrected) rounded minimum, plus the
appended sentinel `round_range[1] + round_correction`. -/
def binvaluesSeq (roundLo roundHi rounded_diff round_correction : ℚ) : List ℚ :=
  npArange roundLo (roundHi + rounded_diff / 8) (rounded_diff / 8) ++
    [roundHi + round_correction]

/-- Bin boundaries of the spans-zero branch (lines 214-224): a low
`arange` from the rounded minimum up to just above the zero override, and
a high `arange` from just above the zero override past the rounded
maximum. -/
def binvaluesSpan (roundLo roundHi ZEROOVERRIDE round_correction : ℚ) : List ℚ :=
  npArange roundLo (ZEROOVERRIDE + round_correction / 10) |roundLo / 4| ++
    npArange (ZEROOVERRIDE + round_correction / 10) (roundHi + roundHi / 4) (roundHi / 4)

/-- Every intermediate quantity of the boundary derivation, named after
the source variables of lines 172-235. `magnitude` is the value after the
line-198 decrement; `roundLo` is `round_range[0]` after the line-195
correction. -/
structure Deriv where
  allScores : List ℚ
  lowestVal : ℚ
  highestVal : ℚ
  valRange : ℚ
  magnitude0 : ℤ
  roundLo0 : ℚ
  roundHi : ℚ
  roundedDiff : ℚ
  medianVal : ℚ
  roundCorrection : ℚ
  roundLo : ℚ
  magnitude : ℤ
  binvalues : List ℚ
  defaultindex : ℤ
  binnameCorrection : ℚ
  deriving DecidableEq

def overflowErrMsg : String := "OverflowError: cannot convert float infinity to integer"

def zeroDivErrMsg : String := "ZeroDivisionError: division by zero"

def nameErrMsg : String := "NameError: name binvalues is not defined"

def minEmptyErrMsg : String := "ValueError: min() arg is an empty sequence"

/-- Lines 174-235 given the score collection the source actually uses and
its min and max. A zero range makes `int(floor(log10 _))` overflow; the
all-non-positive branch (lines 227-233) never assigns `binvalues`, so the
first later use raises `NameError`; a zero `arange` step raises
`ZeroDivisionError`. -/
def deriveFromScores (all_scores : List ℚ) (lowest_val highest_val : ℚ)
    (default_chain_grp : Option ℤ) (ZEROOVERRIDE : ℚ) : Except String Deriv :=
  let val_range := highest_val - lowest_val
  if 0 < val_range then
    let magnitude := floorLog10 val_range
    let dec := decimalsOf magnitude
    let roundLo0 := npAround lowest_val dec
    let roundHi := npAround highest_val dec
    let rounded_diff := roundHi - roundLo0
    let median_val := npMedian all_scores
    let round_correction : ℚ := 10 ^ magnitude
    let roundLo := if lowest_val < roundLo0 then roundLo0 - round_correction else roundLo0
    let magnitude' := magAdjusted magnitude val_range
    let defaultindex := defaultIndexOf default_chain_grp lowest_val highest_val
    let bnc : ℚ := 10 / 10 ^ magnitude'
    if 0 ≤ lowest_val then
      if rounded_diff = 0 then .error zeroDivErrMsg
      else
        .ok ⟨all_scores, lowest_val, highest_val, val_range, magnitude, roundLo0, roundHi,
             rounded_diff, median_val, round_correction, roundLo, magnitude',
             binvaluesSeq roundLo roundHi rounded_diff round_correction, defaultindex, bnc⟩
    else if 0 < highest_val then
      if |roundLo / 4| = 0 then .error zeroDivErrMsg
      else if roundHi / 4 = 0 then .error zeroDivErrMsg
      else
        .ok ⟨all_scores, lowest_val, highest_val, val_range, magnitude, roundLo0, roundHi,
             rounded_diff, median_val, round_correction, roundLo, magnitude',
             binvaluesSpan roundLo roundHi ZEROOVERRIDE round_correction, defaultindex, bnc⟩
    else .error nameErrMsg
  else .error overflowErrMsg

/-- Line 172: `list(itertools.chain(gen))[0]`. `itertools.chain` is
applied to a single generator argument, so the chained list is the list of
per-chain score lists and `[0]` picks the first chain only; an empty dict
raises `IndexError`. -/
def allScoresOf (scoredict : ScoreDict) : Option (List ℚ) :=
  (scoredict.map (fun p => p.2.map Prod.snd)).head?

/-- The whole boundary derivation of `make_output_script` from the score
dict (lines 172-235). -/
def deriveBins (scoredict : ScoreDict) (default_chain_grp : Option ℤ)
    (ZEROOVERRIDE : ℚ) : Except String Deriv :=
  match allScoresOf scoredict with
  | none => .error indexErrMsg
  | some all_scores =>
    match all_scores.min?, all_scores.max? with
    | some lowest_val, some highest_val =>
        deriveFromScores all_scores lowest_val highest_val default_chain_grp ZEROOVERRIDE
    | _, _ => .error minEmptyErrMsg

/-! ## Script emission (`make_output_script`, lines 237-280)

Directives are kept structured: each constructor carries exactly the data
interpolated into the corresponding `wayout.write` format string. -/

inductive Directive where
  | hideEverything
  | showCartoon
  | setColorDefault (rgb : List ℚ)
  | colorDefaultAll
  | setColor (colorbase : String) (idx : ℤ) (rgb : List ℚ)
  | colorChain (colorbase : String) (idx : ℤ) (chain : String)
  | selectBin (idx : ℤ) (group : String) (ordinal : ℕ) (chain : String) (residues : List ℤ)
  | colorSel (colorbase : String) (idx : ℤ) (group : String) (ordinal : ℕ) (chain : String)
  deriving DecidableEq

/-- The fixed palette table of lines 123-165: name → nine RGB triples. -/
def paletteOf (name : String) : Option (List (List ℚ)) :=
  if name = "red" then some
    [[0.63,0.63,0.63], [0.73,0.55,0.55], [0.75,0.47,0.47],
     [0.77,0.38,0.38], [0.79,0.29,0.29], [0.82,0.21,0.21],
     [0.84,0.13,0.13], [0.88,0,0], [1,0,0.55]]
  else if name = "yellow" then some
    [[0.63,0.63,0.63], [0.66,0.67,0.51], [0.68,0.71,0.43],
     [0.70,0.73,0.36], [0.72,0.76,0.28], [0.74,0.80,0.20],
     [0.76,0.83,0.12], [0.79,0.87,0.00], [1,0.8,0.16]]
  else if name = "blue" then some
    [[0.63,0.63,0.63], [0.50,0.58,0.68], [0.42,0.55,0.71],
     [0.35,0.52,0.73], [0.28,0.49,0.76], [0.20,0.46,0.80],
     [0.12,0.43,0.83], [0.00,0.38,0.87], [0.6,0,1]]
  else if name = "green" then some
    [[0.63,0.63,0.63], [0.50,0.68,0.56], [0.42,0.71,0.53],
     [0.35,0.74,0.49], [0.26,0.77,0.44], [0.19,0.80,0.41],
     [0.12,0.83,0.37], [0.01,0.87,0.31], [0,1,0.83]]
  else if name = "div1w" then some
    [[0.55,0.32,0.04], [0.75,0.51,0.18], [0.87,0.76,0.49],
     [0.96,0.91,0.76], [0.96,0.96,0.96], [0.78,0.92,0.90],
     [0.50,0.80,0.76], [0.21,0.59,0.56], [0.00,0.40,0.37]]
  else if name = "div1b" then some
    [[0.87,0.76,0.49], [0.75,0.51,0.18], [0.55,0.32,0.04],
     [0.33,0.19,0.02], [0.24,0.24,0.24], [0.00,0.40,0.37],
     [0.21,0.59,0.56], [0.50,0.80,0.76], [0.78,0.92,0.90]]
  else if name = "div2w" then some
    [[0.70,0.09,0.17], [0.84,0.38,0.30], [0.96,0.65,0.51],
     [0.99,0.86,0.78], [0.97,0.97,0.97], [0.82,0.90,0.94],
     [0.57,0.77,0.87], [0.26,0.58,0.76], [0.13,0.40,0.67]]
  else if name = "div2b" then some
    [[0.96,0.65,0.51], [0.84,0.38,0.30], [0.70,0.09,0.17],
     [0.40,0.00,0.12], [0.24,0.24,0.24], [0.02,0.19,0.38],
     [0.13,0.40,0.67], [0.26,0.58,0.76], [0.57,0.77,0.87]]
  else none

def insufColor : List ℚ := [0.75, 0.75, 0.58]

def keyErrMsg (name : String) : String := "KeyError: " ++ name

/-- Python list indexing with negative-index wrap-around; `none` is an
`IndexError`. -/
def pyGet? (l : List ℚ) (i : ℤ) : Option ℚ :=
  let j := if 0 ≤ i then i else (l.length : ℤ) + i
  if 0 ≤ j then l[j.toNat]? else none

/-- The inner loop of lines 262-266: scan `binvalues[:-1]` in order (the
list is walked two boundaries at a time, so the last boundary only ever
appears as an upper bound) and stop at the first bin whose upper boundary
the score is strictly below, returning its index and boundary value. -/
def firstBinFrom (score : ℚ) : ℕ → List ℚ → Option (ℕ × ℚ)
  | _, [] => none
  | _, [_] => none
  | i, v :: upper :: rest =>
      if score < upper then some (i, v) else firstBinFrom score (i + 1) (upper :: rest)

def firstBin (binvalues : List ℚ) (score : ℚ) : Option (ℕ × ℚ) :=
  firstBinFrom score 0 binvalues

/-- `scoregroups[value].append(residue)` on a `defaultdict(list)` keyed by
the bin boundary value. -/
def appendGroup : List (ℚ × List ℤ) → ℚ → ℤ → List (ℚ × List ℤ)
  | [], v, r => [(v, [r])]
  | (v', rs) :: rest, v, r =>
      if v' = v then (v', rs ++ [r]) :: rest else (v', rs) :: appendGroup rest v r

/-- Lines 258-267: assign every residue of one chain to a bin group,
translating by the chain offset; a residue whose score is below no upper
boundary is silently left out (the loop has no `else`). -/
def buildScoreGroups (binvalues : List ℚ) (chainmap : List (ℤ × ℚ)) (chainoffset : ℤ) :
    List (ℚ × List ℤ) :=
  chainmap.foldl
    (fun groups p =>
      match firstBin binvalues p.2 with
      | some iv => appendGroup groups iv.2 (p.1 - chainoffset)
      | none => groups)
    []

/-- `dict.get(key, default)` on a `String`-keyed association list. -/
def lookupStr (l : List (String × α)) (k : String) (dflt : α) : α :=
  match l.find? (fun p => p.1 == k) with
  | some p => p.2
  | none => dflt

/-- `defaultdict` read access on the rational-keyed score groups. -/
def lookupGroup (l : List (ℚ × List ℤ)) (v : ℚ) : List ℤ :=
  match l.find? (fun p => decide (p.1 = v)) with
  | some p => p.2
  | none => []

/-- Lines 251-253: one `set_color` directive per palette entry, naming it
by the truncated scaled boundary `binvalues[i]`; a missing boundary is an
`IndexError` that aborts with the directives so far. -/
def emitSetColors (colorbase : String) (bnc : ℚ) (binvalues : List ℚ) :
    ℕ → List (List ℚ) → List Directive × Option String
  | _, [] => ([], none)
  | i, rgb :: rest =>
    match binvalues[i]? with
    | none => ([], some indexErrMsg)
    | some bv =>
      let r := emitSetColors colorbase bnc binvalues (i + 1) rest
      (Directive.setColor colorbase (truncQ (bv * bnc)) rgb :: r.1, r.2)

/-- Lines 271-279: for each non-excluded bin over `binvalues[:-1]`, a
`select` directive and a `color` directive when the bin is non-empty. -/
def emitBinSelections (colorbase group chain : String) (exclude_common : Bool) (bnc : ℚ)
    (defaultindex : ℤ) (scoregroups : List (ℚ × List ℤ)) :
    ℕ → List ℚ → List Directive
  | _, [] => []
  | _, [_] => []
  | i, v :: upper :: rest =>
    let tail := emitBinSelections colorbase group chain exclude_common bnc defaultindex
      scoregroups (i + 1) (upper :: rest)
    if (i : ℤ) = defaultindex ∧ exclude_common then tail
    else
      let resilist := lookupGroup scoregroups v
      if resilist = [] then tail
      else
        Directive.selectBin (truncQ (v * bnc)) group (i + 1) chain resilist ::
          Directive.colorSel colorbase (truncQ (v * bnc)) group (i + 1) chain :: tail

/-- Lines 256-279 for one chain: group its residues, color the whole
chain with the default bin's color (Python negative indexing applies to
`binvalues[defaultindex]`), then emit the per-bin selections. -/
def emitChain (colorbase group : String) (exclude_common : Bool) (bnc : ℚ)
    (binvalues : List ℚ) (defaultindex : ℤ) (scoredict : ScoreDict)
    (refoffsets : List (String × ℤ)) (chain : String) : List Directive × Option String :=
  let chainoffset := lookupStr refoffsets chain 0
  let chainmap := lookupStr scoredict chain []
  let scoregroups := buildScoreGroups binvalues chainmap chainoffset
  match pyGet? binvalues defaultindex with
  | none => ([], some indexErrMsg)
  | some dv =>
      (Directive.colorChain colorbase (truncQ (dv * bnc)) chain ::
        emitBinSelections colorbase group chain exclude_common bnc defaultindex
          scoregroups 0 binvalues,
       none)

/-- The chain loop of line 256, aborting at the first failing chain. -/
def emitChains (colorbase group : String) (exclude_common : Bool) (bnc : ℚ)
    (binvalues : List ℚ) (defaultindex : ℤ) (scoredict : ScoreDict)
    (refoffsets : List (String × ℤ)) : List String → List Directive × Option String
  | [] => ([], none)
  | ch :: rest =>
    let r := emitChain colorbase group exclude_common bnc binvalues defaultindex
      scoredict refoffsets ch
    match r.2 with
    | some e => (r.1, some e)
    | none =>
      let rr := emitChains colorbase group exclude_common bnc binvalues defaultindex
        scoredict refoffsets rest
      (r.1 ++ rr.1, rr.2)

/-- `make_output_script` (lines 118-280): derive the bins, then emit the
ordered directive stream; the first component is everything written to
`wayout` before a possible uncaught exception (second component). The
palette lookup of line 248 happens after the four preamble directives of
lines 241-246. -/
def make_output_script (scoredict : ScoreDict) (keepchains : List String)
    (refoffsets : List (String × ℤ)) (groupname : String) (exclude_common : Bool)
    (default_chain_grp : Option ℤ) (basecolor : String) (reverse_colors : Bool)
    (ZEROOVERRIDE : ℚ) : List Directive × Option String :=
  match deriveBins scoredict default_chain_grp ZEROOVERRIDE with
  | .error e => ([], some e)
  | .ok d =>
    let preamble := [Directive.hideEverything, Directive.showCartoon,
                     Directive.setColorDefault insufColor, Directive.colorDefaultAll]
    match paletteOf basecolor with
    | none => (preamble, some (keyErrMsg basecolor))
    | some cols =>
      let targetcolors := if reverse_colors then cols.reverse else cols
      let r1 := emitSetColors basecolor d.binnameCorrection d.binvalues 0 targetcolors
      match r1.2 with
      | some e => (preamble ++ r1.1, some e)
      | none =>
        let r2 := emitChains basecolor groupname exclude_common d.binnameCorrection
          d.binvalues d.defaultindex scoredict refoffsets keepchains
        (preamble ++ r1.1 ++ r2.1, r2.2)

/-! ## Auxiliary views used by the proofs

`rowAction` classifies what lines 64-82 of the reader do with one raw
line, as a function of the line alone; `applyRow` replays that action on
the loop state. `countResidue` counts how many bins hold a residue;
`projRS` / `projResult` are the externally observable parts of the reader
state and result. `derivC2W`, `derivC8W`, `derivC9W` are the concrete
derivations used by witnesses. -/

inductive RowAction where
  | pass
  | skip (ncols : ℕ)
  | abort (e : String)
  | store (ncols : ℕ) (chain : String) (site : ℤ) (score : ℚ)
  deriving DecidableEq

def rowAction (delim : String) (scorecolumn sitecolumn : ℕ) (chaincolumn : Option ℕ)
    (defaultchain : String) (rawline : String) : RowAction :=
  let line := rawline.trim
  if line = "" then .pass
  else if line.front = '#' then .pass
  else
    let lsplits := line.splitOn delim
    match lsplits[sitecolumn]? with
    | none => .abort indexErrMsg
    | some sitecol =>
      match pyFloat? sitecol with
      | none => .skip lsplits.length
      | some siteq =>
        match lsplits[scorecolumn]? with
        | none => .abort indexErrMsg
        | some scorecol =>
          match pyFloat? scorecol with
          | none => .abort floatErrMsg
          | some score =>
            match chainOf lsplits chaincolumn defaultchain with
            | none => .abort indexErrMsg
            | some chain => .store lsplits.length chain (truncQ siteq) score

def applyRow (st : ReadState) : RowAction → Except String ReadState
  | .pass => .ok st
  | .skip n =>
      .ok { st with linecounter := st.linecounter + 1, columnmax := max st.columnmax n }
  | .abort e => .error e
  | .store n chain site score =>
      .ok { st with linecounter := st.linecounter + 1, columnmax := max st.columnmax n,
                    table := upsertChain st.table chain site score,
                    foundscores := st.foundscores + 1 }

/-- The parts of the loop state that determine the reader's observable
output: the score table and the found-score count. -/
def projRS (st : ReadState) : ScoreDict × ℕ := (st.table, st.foundscores)

/-- The externally observable part of the reader's result: the score
table and how many scores were found. -/
def projResult (r : ReadResult) : ScoreDict × ℕ := (r.table, r.foundscores)

/-- Total number of times the (offset-translated) residue `x` appears
across all bin groups. -/
def countResidue (groups : List (ℚ × List ℤ)) (x : ℤ) : ℕ :=
  (groups.map (fun g => g.2.count x)).sum

/-- The derivation for the scores `{0.1, 4.9, 9.8}` of the C2 witness. -/
def derivC2W : Deriv :=
  ⟨[1/10, 49/10, 49/5], 1/10, 49/5, 97/10, 0, 0, 10, 10, 49/10, 1, 0, 0,
   [0, 5/4, 5/2, 15/4, 5, 25/4, 15/2, 35/4, 10, 11], 0, 10⟩

/-- The derivation for the scores `{5.5, 9}` of the C8 witness. -/
def derivC8W : Deriv :=
  ⟨[11/2, 9], 11/2, 9, 7/2, 0, 6, 9, 3, 29/4, 1, 5, -1,
   [5, 43/8, 23/4, 49/8, 13/2, 55/8, 29/4, 61/8, 8, 67/8, 35/4, 73/8, 10], 0, 100⟩

/-- The derivation for the scores `{0, 7.8}` of the C9 witness. -/
def derivC9W : Deriv :=
  ⟨[0, 39/5], 0, 39/5, 39/5, 0, 0, 8, 8, 39/10, 1, 0, -1,
   [0, 1, 2, 3, 4, 5, 6, 7, 8, 9], 0, 100⟩

/-! ## Arithmetic facts about the embedded numpy helpers -/

theorem roundHalfEvenZ_le (x : ℚ) : (roundHalfEvenZ x : ℚ) ≤ x + 1/2 := by
  have h1 := Int.floor_le x
  unfold roundHalfEvenZ
  split_ifs <;> push_cast <;> linarith

theorem le_roundHalfEvenZ (x : ℚ) : x - 1/2 ≤ (roundHalfEvenZ x : ℚ) := by
  have h2 := Int.lt_floor_add_one x
  unfold roundHalfEvenZ
  split_ifs <;> push_cast <;> linarith

theorem roundHalfEvenZ_mono {x y : ℚ} (h : x ≤ y) : roundHalfEvenZ x ≤ roundHalfEvenZ y := by
  by_contra hlt
  push_neg at hlt
  have hle : roundHalfEvenZ y + 1 ≤ roundHalfEvenZ x := hlt
  have h1 : (roundHalfEvenZ x : ℚ) ≤ x + 1/2 := roundHalfEvenZ_le x
  have h2 : y - 1/2 ≤ (roundHalfEvenZ y : ℚ) := le_roundHalfEvenZ y
  have hle' : (roundHalfEvenZ y : ℚ) + 1 ≤ (roundHalfEvenZ x : ℚ) := by exact_mod_cast hle
  have hyx : y ≤ x := by linarith
  have hxy : x = y := le_antisymm h hyx
  subst hxy
  omega

theorem npAround_le (x : ℚ) (d : ℕ) : npAround x d ≤ x + 1 / (2 * 10 ^ d) := by
  have hp : (0:ℚ) < 10 ^ d := by positivity
  have h := roundHalfEvenZ_le (x * 10 ^ d)
  rw [npAround, div_le_iff₀ hp]
  have he : (x + 1 / (2 * 10 ^ d)) * 10 ^ d = x * 10 ^ d + 1/2 := by
    field_simp
    ring
  rw [he]
  exact h

theorem le_npAround (x : ℚ) (d : ℕ) : x - 1 / (2 * 10 ^ d) ≤ npAround x d := by
  have hp : (0:ℚ) < 10 ^ d := by positivity
  have h := le_roundHalfEvenZ (x * 10 ^ d)
  rw [npAround, le_div_iff₀ hp]
  have he : (x - 1 / (2 * 10 ^ d)) * 10 ^ d = x * 10 ^ d - 1/2 := by
    field_simp
    ring
  rw [he]
  exact h

theorem npAround_mono {x y : ℚ} (h : x ≤ y) (d : ℕ) : npAround x d ≤ npAround y d := by
  have hp : (0:ℚ) < 10 ^ d := by positivity
  have hm : roundHalfEvenZ (x * 10 ^ d) ≤ roundHalfEvenZ (y * 10 ^ d) :=
    roundHalfEvenZ_mono (mul_le_mul_of_nonneg_right h hp.le)
  have hm' : (roundHalfEvenZ (x * 10 ^ d) : ℚ) ≤ (roundHalfEvenZ (y * 10 ^ d) : ℚ) := by
    exact_mod_cast hm
  have := mul_le_mul_of_nonneg_right hm' (le_of_lt (inv_pos.mpr hp))
  simpa [npAround, div_eq_mul_inv] using this

theorem pow10_zpow_pos (m : ℤ) : (0:ℚ) < 10 ^ m := zpow_pos (by norm_num) m

/-- The rounding step `1 / 10 ^ decimalsOf m` never exceeds the
correction unit `10 ^ m`. -/
theorem pow10_decimals_le (m : ℤ) : ((10:ℚ) ^ (decimalsOf m : ℕ))⁻¹ ≤ (10:ℚ) ^ m := by
  have hmin : ((decimalsOf m : ℤ)) = -(min m 0) := by
    rw [decimalsOf]
    omega
  have : ((10:ℚ) ^ (decimalsOf m : ℕ))⁻¹ = (10:ℚ) ^ (min m 0) := by
    rw [← zpow_natCast (10:ℚ) (decimalsOf m), ← zpow_neg, hmin, neg_neg]
  rw [this]
  exact zpow_le_zpow_right₀ (by norm_num) (min_le_left m 0)

theorem npArange_length (start stop step : ℚ) :
    (npArange start stop step).length = (⌈(stop - start) / step⌉).toNat := by
  rw [npArange, List.length_map, List.length_range]

theorem npArange_nine (a s : ℚ) (hs : s ≠ 0) :
    npArange a (a + 8 * s + s) s = (List.range 9).map (fun i : ℕ => a + (i : ℚ) * s) := by
  have h9 : (a + 8 * s + s - a) / s = 9 := by
    field_simp
    ring
  rw [npArange, h9]
  rfl

theorem qmin?_spec {xs : List ℚ} {a : ℚ} (h : xs.min? = some a) :
    a ∈ xs ∧ ∀ b ∈ xs, a ≤ b := by
  haveI : Std.Antisymm (fun x y : ℚ => x ≤ y) := ⟨by intro a b h1 h2; exact le_antisymm h1 h2⟩
  exact (List.min?_eq_some_iff (fun _ => le_refl _) (fun a b => min_choice a b)
    (fun _ _ _ => le_min_iff)).mp h

theorem qmax?_spec {xs : List ℚ} {a : ℚ} (h : xs.max? = some a) :
    a ∈ xs ∧ ∀ b ∈ xs, b ≤ a := by
  haveI : Std.Antisymm (fun x y : ℚ => x ≤ y) := ⟨by intro a b h1 h2; exact le_antisymm h1 h2⟩
  exact (List.max?_eq_some_iff (fun _ => le_refl _) (fun a b => max_choice a b)
    (fun _ _ _ => max_le_iff)).mp h

/-! ## Structure of a successful boundary derivation -/

theorem deriveFromScores_ok {as : List ℚ} {lo hi : ℚ} {grp : Option ℤ} {Z : ℚ} {d : Deriv}
    (h : deriveFromScores as lo hi grp Z = .ok d) :
    d.allScores = as ∧ d.lowestVal = lo ∧ d.highestVal = hi ∧
    d.valRange = hi - lo ∧ 0 < d.valRange ∧
    d.magnitude0 = floorLog10 (hi - lo) ∧
    d.roundLo0 = npAround lo (decimalsOf d.magnitude0) ∧
    d.roundHi = npAround hi (decimalsOf d.magnitude0) ∧
    d.roundedDiff = d.roundHi - d.roundLo0 ∧
    d.medianVal = npMedian as ∧
    d.roundCorrection = 10 ^ d.magnitude0 ∧
    (lo < d.roundLo0 → d.roundLo = d.roundLo0 - d.roundCorrection) ∧
    (¬ lo < d.roundLo0 → d.roundLo = d.roundLo0) ∧
    d.magnitude = magAdjusted d.magnitude0 d.valRange ∧
    d.defaultindex = defaultIndexOf grp lo hi ∧
    d.binnameCorrection = 10 / 10 ^ d.magnitude ∧
    ((0 ≤ lo ∧ d.roundedDiff ≠ 0 ∧
      d.binvalues = binvaluesSeq d.roundLo d.roundHi d.roundedDiff d.roundCorrection) ∨
     (lo < 0 ∧ 0 < hi ∧
      d.binvalues = binvaluesSpan d.roundLo d.roundHi Z d.roundCorrection)) := by
  simp only [deriveFromScores] at h
  split_ifs at h with h1 h2 h3 h4 h5 h6 h7 h8 h9 h10
  · injection h with h
    subst h
    exact ⟨rfl, rfl, rfl, rfl, h1, rfl, rfl, rfl, rfl, rfl, rfl,
           fun _ => rfl, fun hc => absurd h4 hc, rfl, rfl, rfl, Or.inl ⟨h2, h3, rfl⟩⟩
  · injection h with h
    subst h
    exact ⟨rfl, rfl, rfl, rfl, h1, rfl, rfl, rfl, rfl, rfl, rfl,
           fun hc => absurd hc h4, fun _ => rfl, rfl, rfl, rfl, Or.inl ⟨h2, h3, rfl⟩⟩
  · injection h with h
    subst h
    exact ⟨rfl, rfl, rfl, rfl, h1, rfl, rfl, rfl, rfl, rfl, rfl,
           fun _ => rfl, fun hc => absurd h6 hc, rfl, rfl, rfl,
           Or.inr ⟨lt_of_not_le h2, h5, rfl⟩⟩
  · injection h with h
    subst h
    exact ⟨rfl, rfl, rfl, rfl, h1, rfl, rfl, rfl, rfl, rfl, rfl,
           fun hc => absurd hc h6, fun _ => rfl, rfl, rfl, rfl,
           Or.inr ⟨lt_of_not_le h2, h5, rfl⟩⟩

theorem deriveBins_ok {sd : ScoreDict} {grp : Option ℤ} {Z : ℚ} {d : Deriv}
    (h : deriveBins sd grp Z = .ok d) :
    ∃ as lo hi, allScoresOf sd = some as ∧ as.min? = some lo ∧ as.max? = some hi ∧
      deriveFromScores as lo hi grp Z = .ok d := by
  unfold deriveBins at h
  split at h
  · exact absurd h (by simp)
  rename_i as hsome
  split at h
  · rename_i lo hi hmin hmax
    exact ⟨as, lo, hi, hsome, hmin, hmax, h⟩
  · exact absurd h (by simp)

/-! ## Claim C1 -/

/-- C1: the claim says the bin boundaries are derived from the flattened
scores of ALL chains, so that every chain influences the BinSet. The code
(line 172) applies `itertools.chain` to a single generator argument and
takes element `[0]`, keeping only the FIRST chain's scores: changing chain
B's score from 100 to 500 leaves the whole derivation unchanged, and the
derived min and max are those of chain A alone (0 and 1) even though the
table holds a score of 100. -/
theorem c1_bins_use_first_chain_only :
    deriveBins [("A", [(1, (0:ℚ)), (2, 1)]), ("B", [(1, 100)])] none 0 =
      deriveBins [("A", [(1, (0:ℚ)), (2, 1)]), ("B", [(1, 500)])] none 0 ∧
    allScoresOf [("A", [(1, (0:ℚ)), (2, 1)]), ("B", [(1, 100)])] = some [0, 1] ∧
    (deriveBins [("A", [(1, (0:ℚ)), (2, 1)]), ("B", [(1, 100)])] none 0).toOption.map
      (fun d => (d.lowestVal, d.highestVal)) = some (0, 1) :=
  ⟨by with_unfolding_all rfl, by with_unfolding_all rfl, by with_unfolding_all rfl⟩

/-! ## Claim C4 -/

/-- C4: the default bin index is the explicit override whenever one is
supplied; otherwise it is 0 when all scores are non-negative, 4 when the
scores span zero, and 8 when all scores are non-positive (with at least
one negative score; an all-zero collection is unreachable since the
derivation fails on a zero range before any coloring). The last conjunct
ties `defaultIndexOf` to every successful run of the derivation. -/
theorem c4_default_index :
    (∀ (k : ℤ) (lo hi : ℚ), defaultIndexOf (some k) lo hi = k) ∧
    (∀ (scores : List ℚ) (lo hi : ℚ), scores.min? = some lo → scores.max? = some hi →
      ((∀ x ∈ scores, 0 ≤ x) → defaultIndexOf none lo hi = 0) ∧
      ((∃ x ∈ scores, x < 0) → (∃ x ∈ scores, 0 < x) → defaultIndexOf none lo hi = 4) ∧
      ((∃ x ∈ scores, x < 0) → (∀ x ∈ scores, x ≤ 0) → defaultIndexOf none lo hi = 8)) ∧
    (∀ (sd : ScoreDict) (grp : Option ℤ) (Z : ℚ) (d : Deriv),
      deriveBins sd grp Z = .ok d →
        d.defaultindex = defaultIndexOf grp d.lowestVal d.highestVal) := by
  refine ⟨fun k lo hi => rfl, ?_, ?_⟩
  · intro scores lo hi hmin hmax
    obtain ⟨hlomem, hlole⟩ := qmin?_spec hmin
    obtain ⟨hhimem, hhile⟩ := qmax?_spec hmax
    refine ⟨?_, ?_, ?_⟩
    · intro hall
      rw [defaultIndexOf]
      rw [if_pos (hall lo hlomem)]
    · rintro ⟨x, hx, hxneg⟩ ⟨y, hy, hypos⟩
      rw [defaultIndexOf]
      rw [if_neg (not_le.mpr (lt_of_le_of_lt (hlole x hx) hxneg)),
          if_pos (lt_of_lt_of_le hypos (hhile y hy))]
    · rintro ⟨x, hx, hxneg⟩ hall
      rw [defaultIndexOf]
      rw [if_neg (not_le.mpr (lt_of_le_of_lt (hlole x hx) hxneg)),
          if_neg (not_lt.mpr (hall hi hhimem))]
  · intro sd grp Z d h
    obtain ⟨as, lo, hi, _, _, _, hd⟩ := deriveBins_ok h
    obtain ⟨_, hlo, hhi, _, _, _, _, _, _, _, _, _, _, _, hdi, _⟩ := deriveFromScores_ok hd
    rw [hdi, hlo, hhi]

/-- Witness for C4 at concrete inputs: an override of 7 wins over the
sign-spanning data, and the three branch defaults come out as 0, 4, 8. -/
theorem c4_default_index_witness :
    defaultIndexOf (some 7) (-1) 5 = 7 ∧
    defaultIndexOf none 1 2 = 0 ∧
    defaultIndexOf none (-1) 2 = 4 ∧
    defaultIndexOf none (-3) (-1) = 8 := by
  refine ⟨c4_default_index.1 7 (-1) 5, ?_, ?_, ?_⟩
  · exact (c4_default_index.2.1 [(1:ℚ), 2] 1 2 (by with_unfolding_all rfl)
      (by with_unfolding_all rfl)).1 (by norm_num)
  · exact ((c4_default_index.2.1 [(-1:ℚ), 2] (-1) 2 (by with_unfolding_all rfl)
      (by with_unfolding_all rfl)).2.1 ⟨-1, by norm_num, by norm_num⟩
      ⟨2, by norm_num, by norm_num⟩)
  · exact ((c4_default_index.2.1 [(-3:ℚ), -1] (-3) (-1) (by with_unfolding_all rfl)
      (by with_unfolding_all rfl)).2.2 ⟨-3, by norm_num, by norm_num⟩ (by norm_num))

/-! ## Claim C6 -/

/-- C6: a run whose score collection is empty fails fatally (an uncaught
exception at the `[0]` indexing of line 172 or at `min` of line 174)
before a single output directive is produced. -/
theorem c6_empty_scores_fatal (sd : ScoreDict) (kc : List String)
    (ro : List (String × ℤ)) (gn : String) (ec : Bool) (grp : Option ℤ) (bc : String)
    (rc : Bool) (Z : ℚ) (hempty : ∀ p ∈ sd, p.2 = ([] : List (ℤ × ℚ))) :
    (make_output_script sd kc ro gn ec grp bc rc Z).1 = [] ∧
    (make_output_script sd kc ro gn ec grp bc rc Z).2.isSome = true := by
  have hderr : ∃ e, deriveBins sd grp Z = .error e := by
    cases sd with
    | nil => exact ⟨indexErrMsg, rfl⟩
    | cons p rest =>
      have hp : p.2 = [] := hempty p (List.mem_cons_self p rest)
      refine ⟨minEmptyErrMsg, ?_⟩
      unfold deriveBins allScoresOf
      simp [hp]
  obtain ⟨e, he⟩ := hderr
  unfold make_output_script
  rw [he]
  exact ⟨rfl, rfl⟩

/-- Witness for C6: the literal empty score dict (the emptiness
hypothesis holds vacuously there). -/
theorem c6_empty_scores_fatal_witness :
    (make_output_script [] [] [] "grp" false none "red" false 0).1 = [] ∧
    (make_output_script [] [] [] "grp" false none "red" false 0).2.isSome = true :=
  ⟨(c6_empty_scores_fatal [] [] [] "grp" false none "red" false 0 (by simp)).1,
   (c6_empty_scores_fatal [] [] [] "grp" false none "red" false 0 (by simp)).2⟩

/-! ## Claim C5 -/

/-- C5 counterexample: with the unrecognized palette name `"purple"` the
run does fail fatally (uncaught `KeyError` at line 248), but only AFTER
the four preamble directives of lines 241-246 have already been written,
so the claim that no directive text is emitted prior to the failure is
false. -/
theorem c5_cex_unknown_palette_after_preamble :
    make_output_script [("A", [(1, (2:ℚ)), (2, 3)])] ["A"] [("A", 0)] "grp" false none
        "purple" false 0 =
      ([Directive.hideEverything, Directive.showCartoon,
        Directive.setColorDefault insufColor, Directive.colorDefaultAll],
       some (keyErrMsg "purple")) ∧
    ([Directive.hideEverything, Directive.showCartoon,
      Directive.setColorDefault insufColor, Directive.colorDefaultAll] : List Directive) ≠ [] :=
  ⟨by with_unfolding_all rfl, by simp⟩

/-- C5 amended: an unrecognized palette name is fatal (uncaught
`KeyError`), but the failure occurs after exactly the four preamble
directives have been emitted, and before any palette color definition or
per-chain directive. -/
theorem c5_amended_unknown_palette (sd : ScoreDict) (kc : List String)
    (ro : List (String × ℤ)) (gn : String) (ec : Bool) (grp : Option ℤ) (bc : String)
    (rc : Bool) (Z : ℚ) (hd : ∃ d0, deriveBins sd grp Z = Except.ok d0)
    (hp : paletteOf bc = none) :
    make_output_script sd kc ro gn ec grp bc rc Z =
      ([Directive.hideEverything, Directive.showCartoon,
        Directive.setColorDefault insufColor, Directive.colorDefaultAll],
       some (keyErrMsg bc)) := by
  obtain ⟨d0, hd⟩ := hd
  unfold make_output_script
  rw [hd, hp]

/-- Witness for C5 amended at a concrete two-residue table and palette
name `"purple"` (the derivation succeeds there, as the proof shows). -/
theorem c5_amended_unknown_palette_witness :
    paletteOf "purple" = none ∧
    make_output_script [("A", [(1, (2:ℚ)), (2, 3)])] ["A"] [("A", 0)] "grp" false none
        "purple" false 0 =
      ([Directive.hideEverything, Directive.showCartoon,
        Directive.setColorDefault insufColor, Directive.colorDefaultAll],
       some (keyErrMsg "purple")) :=
  ⟨rfl,
   c5_amended_unknown_palette [("A", [(1, (2:ℚ)), (2, 3)])] ["A"] [("A", 0)] "grp" false
     none "purple" false 0 ⟨_, by with_unfolding_all rfl⟩ rfl⟩

/-! ## Claim C9 -/

/-- C9 counterexample: for the scores `{0, 7.8}` the raw range is 7.8 but
the ROUNDED range is 8. Line 197 tests the raw range (`1 < 7.8 < 8`), so
the magnitude is decremented from 0 to -1 although the rounded range 8 is
not strictly between 1 and 8 — refuting the claim that the decrement
happens exactly when the rounded range lies strictly between 1 and 8. -/
theorem c9_cex_decrement_uses_raw_range :
    (deriveBins [("A", [(1, (0:ℚ)), (2, 39/5)])] none 0).toOption.map
      (fun d => (d.magnitude0, d.magnitude, d.roundedDiff)) = some (0, -1, 8) ∧
    ¬ ((1:ℚ) < 8 ∧ (8:ℚ) < 8) :=
  ⟨by with_unfolding_all rfl, by norm_num⟩

/-- C9 amended: the magnitude used for bin-name decimal precision is
decremented by 1 exactly when the RAW value range (`highest - lowest`,
before rounding) is strictly between 1 and 8. -/
theorem c9_amended_decrement_iff_raw_range (sd : ScoreDict) (grp : Option ℤ) (Z : ℚ)
    (d : Deriv) (h : deriveBins sd grp Z = Except.ok d) :
    (d.magnitude = d.magnitude0 - 1 ↔ (1 < d.valRange ∧ d.valRange < 8)) ∧
    (¬ (1 < d.valRange ∧ d.valRange < 8) → d.magnitude = d.magnitude0) := by
  obtain ⟨as, lo, hi, _, _, _, hd⟩ := deriveBins_ok h
  obtain ⟨_, _, _, _, _, _, _, _, _, _, _, _, _, hmag, _, _, _⟩ := deriveFromScores_ok hd
  constructor
  · rw [hmag, magAdjusted]
    constructor
    · intro he
      by_contra hc
      rw [if_neg hc] at he
      omega
    · intro hc
      rw [if_pos hc]
  · intro hc
    rw [hmag, magAdjusted, if_neg hc]

/-- Witness for C9 amended at the concrete scores `{0, 7.8}`, where the
raw range 7.8 lies strictly between 1 and 8 and the decrement fires. -/
theorem c9_amended_witness :
    deriveBins [("A", [(1, (0:ℚ)), (2, 39/5)])] none 0 = Except.ok derivC9W ∧
    (derivC9W.magnitude = derivC9W.magnitude0 - 1 ↔
      (1 < derivC9W.valRange ∧ derivC9W.valRange < 8)) :=
  ⟨by with_unfolding_all rfl,
   (c9_amended_decrement_iff_raw_range [("A", [(1, (0:ℚ)), (2, 39/5)])] none 0 derivC9W
     (by with_unfolding_all rfl)).1⟩

/-! ## Claim C8 -/

theorem binvaluesSeq_headD (roundLo roundHi diff corr : ℚ)
    (h : 0 < (roundHi + diff / 8 - roundLo) / (diff / 8)) :
    (binvaluesSeq roundLo roundHi diff corr).headD 0 = roundLo := by
  rw [binvaluesSeq, npArange]
  have hpos' : 0 < ⌈(roundHi + diff / 8 - roundLo) / (diff / 8)⌉ := Int.ceil_pos.mpr h
  have he : (⌈(roundHi + diff / 8 - roundLo) / (diff / 8)⌉).toNat =
      (⌈(roundHi + diff / 8 - roundLo) / (diff / 8)⌉).toNat - 1 + 1 := by omega
  rw [he, List.range_succ_eq_map]
  simp

/-- C8: whenever the derivation succeeds on all-non-negative data, the
first derived boundary is the corrected rounded minimum and it never
exceeds the true minimum (nor any score): rounding moves the minimum by
at most half a rounding unit, and the line-195 correction subtracts a
whole unit `10 ^ magnitude` whenever rounding went up. -/
theorem c8_first_boundary_le_min (sd : ScoreDict) (grp : Option ℤ) (Z : ℚ) (d : Deriv)
    (h : deriveBins sd grp Z = Except.ok d) (hpos : 0 ≤ d.lowestVal) :
    d.binvalues.headD 0 = d.roundLo ∧ d.roundLo ≤ d.lowestVal ∧
    ∀ x ∈ d.allScores, d.binvalues.headD 0 ≤ x := by
  obtain ⟨as, lo, hi, _, hmin, hmax, hd⟩ := deriveBins_ok h
  obtain ⟨hsc, hlo, hhi, hvr, hvrpos, _, hrl0, hrh, hdiff, _, hcorr, hrlP, hrlN, _, _, _, hbr⟩ :=
    deriveFromScores_ok hd
  have hlolt : lo < hi := by
    rw [hvr] at hvrpos
    linarith
  have hmono : d.roundLo0 ≤ d.roundHi := by
    rw [hrl0, hrh]
    exact npAround_mono hlolt.le _
  have hcorrpos : 0 < d.roundCorrection := by
    rw [hcorr]
    exact pow10_zpow_pos _
  have hrle : d.roundLo ≤ lo := by
    by_cases hc : lo < d.roundLo0
    · have h1 : d.roundLo = d.roundLo0 - d.roundCorrection := hrlP hc
      have h2 : d.roundLo0 ≤ lo + 1 / (2 * 10 ^ (decimalsOf d.magnitude0)) := by
        rw [hrl0]
        exact npAround_le lo _
      have h3 : ((10:ℚ) ^ (decimalsOf d.magnitude0 : ℕ))⁻¹ ≤ (10:ℚ) ^ d.magnitude0 :=
        pow10_decimals_le _
      have h4 : (1:ℚ) / (2 * 10 ^ (decimalsOf d.magnitude0)) ≤ d.roundCorrection / 2 := by
        rw [hcorr]
        have hPpos : (0:ℚ) < 10 ^ (decimalsOf d.magnitude0 : ℕ) := by positivity
        have he : (1:ℚ) / (2 * 10 ^ (decimalsOf d.magnitude0)) =
            ((10:ℚ) ^ (decimalsOf d.magnitude0 : ℕ))⁻¹ / 2 := by
          field_simp
          ring
        rw [he]
        linarith
      linarith
    · rw [hrlN hc]
      exact not_lt.1 hc
  have hroundLo_le : d.roundLo ≤ d.roundLo0 := by
    by_cases hc : lo < d.roundLo0
    · rw [hrlP hc]
      linarith
    · rw [hrlN hc]
  rcases hbr with ⟨hge, hdne, hbv⟩ | ⟨hlneg, _, _⟩
  · have hdnn : 0 ≤ d.roundedDiff := by
      rw [hdiff]
      linarith
    have hdpos : 0 < d.roundedDiff := lt_of_le_of_ne hdnn (Ne.symm hdne)
    have hstep : 0 < d.roundedDiff / 8 := by positivity
    have hnum : 0 < (d.roundHi + d.roundedDiff / 8 - d.roundLo) / (d.roundedDiff / 8) := by
      apply div_pos _ hstep
      have hd8 : d.roundLo0 ≤ d.roundHi := hmono
      linarith
    have hhead : d.binvalues.headD 0 = d.roundLo := by
      rw [hbv]
      exact binvaluesSeq_headD _ _ _ _ hnum
    refine ⟨hhead, by rw [hlo]; exact hrle, ?_⟩
    intro x hx
    rw [hsc] at hx
    have := (qmin?_spec hmin).2 x hx
    rw [hhead]
    linarith
  · rw [hlo] at hpos
    exact absurd hpos (not_le.mpr hlneg)

/-- Witness for C8 at the scores `{5.5, 9}`: the minimum rounds up to 6,
the correction brings the first boundary down to 5 ≤ 5.5. -/
theorem c8_first_boundary_le_min_witness :
    deriveBins [("A", [(1, (11:ℚ)/2), (2, 9)])] none 0 = Except.ok derivC8W ∧
    0 ≤ derivC8W.lowestVal ∧ derivC8W.binvalues.headD 0 = derivC8W.roundLo ∧
    derivC8W.roundLo ≤ derivC8W.lowestVal ∧ derivC8W.binvalues.headD 0 = 5 := by
  have h : deriveBins [("A", [(1, (11:ℚ)/2), (2, 9)])] none 0 = Except.ok derivC8W := by
    with_unfolding_all rfl
  have hc := c8_first_boundary_le_min _ none 0 derivC8W h (by norm_num [derivC8W])
  exact ⟨h, by norm_num [derivC8W], hc.1, hc.2.1, by norm_num [derivC8W]⟩

/-! ## Claim C2 -/

/-- C2 counterexample: on the specification's own example scores
`{0.1, 4.9, 9.8}` the derived boundary sequence has 10 values (the nine
`arange` steps 0, 1.25, ..., 10 plus the appended sentinel 11), not 9. -/
theorem c2_cex_ten_boundaries :
    (deriveBins [("A", [(1, (1:ℚ)/10), (2, 49/10), (3, 49/5)])] none 0).toOption.map
      (fun d => d.binvalues) =
      some [0, 5/4, 5/2, 15/4, 5, 25/4, 15/2, 35/4, 10, 11] ∧
    ([(0:ℚ), 5/4, 5/2, 15/4, 5, 25/4, 15/2, 35/4, 10, 11].length = 10 ∧ 10 ≠ 9) :=
  ⟨by with_unfolding_all rfl, by norm_num⟩

/-- C2 amended: in the all-non-negative branch, when the rounded minimum
did not overshoot the true minimum (so the line-195 correction does not
fire), the derived boundary sequence has exactly 10 values — nine `arange`
boundaries plus the appended sentinel —, the values strictly increase, and
every score of the collection used for binning is strictly less than the
final (sentinel) boundary. -/
theorem c2_amended_boundary_shape (sd : ScoreDict) (grp : Option ℤ) (Z : ℚ) (d : Deriv)
    (h : deriveBins sd grp Z = Except.ok d) (hpos : 0 ≤ d.lowestVal)
    (hnc : ¬ d.lowestVal < d.roundLo0) :
    d.binvalues.length = 10 ∧ d.binvalues.Chain' (· < ·) ∧
    ∀ x ∈ d.allScores, x < d.binvalues.getLastD 0 := by
  obtain ⟨as, lo, hi, _, hmin, hmax, hd⟩ := deriveBins_ok h
  obtain ⟨hsc, hlo, hhi, hvr, hvrpos, _, hrl0, hrh, hdiff, _, hcorr, _, hrlN, _, _, _, hbr⟩ :=
    deriveFromScores_ok hd
  have hlolt : lo < hi := by
    rw [hvr] at hvrpos
    linarith
  have hmono : d.roundLo0 ≤ d.roundHi := by
    rw [hrl0, hrh]
    exact npAround_mono hlolt.le _
  have hcorrpos : 0 < d.roundCorrection := by
    rw [hcorr]
    exact pow10_zpow_pos _
  rw [hlo] at hpos hnc
  have hrleq : d.roundLo = d.roundLo0 := hrlN hnc
  rcases hbr with ⟨hge, hdne, hbv⟩ | ⟨hlneg, _, _⟩
  · have hdnn : 0 ≤ d.roundedDiff := by
      rw [hdiff]
      linarith
    have hdpos : 0 < d.roundedDiff := lt_of_le_of_ne hdnn (Ne.symm hdne)
    have hstep : 0 < d.roundedDiff / 8 := by positivity
    have hstop : d.roundHi + d.roundedDiff / 8 =
        d.roundLo0 + 8 * (d.roundedDiff / 8) + d.roundedDiff / 8 := by
      rw [hdiff]
      ring
    have hbv' : d.binvalues =
        (List.range 9).map (fun i : ℕ => d.roundLo0 + (i : ℚ) * (d.roundedDiff / 8)) ++
          [d.roundHi + d.roundCorrection] := by
      rw [hbv, binvaluesSeq, hrleq, hstop, npArange_nine _ _ (ne_of_gt hstep)]
    have hf8 : d.roundLo0 + (8 : ℚ) * (d.roundedDiff / 8) = d.roundHi := by
      rw [hdiff]
      ring
    refine ⟨?_, ?_, ?_⟩
    · rw [hbv']
      simp
    · rw [hbv']
      rw [List.chain'_append]
      refine ⟨?_, List.chain'_singleton _, ?_⟩
      · rw [List.chain'_map]
        refine (List.chain'_range_succ _ 8).mpr ?_
        intro m hm
        have he : ((m:ℚ) + 1) * (d.roundedDiff / 8) =
            (m:ℚ) * (d.roundedDiff / 8) + d.roundedDiff / 8 := by
          ring
        push_cast
        linarith
      · intro x hx y hy
        have hxl : ((List.range 9).map
            (fun i : ℕ => d.roundLo0 + (i : ℚ) * (d.roundedDiff / 8))).getLast? =
            some (d.roundLo0 + (8 : ℚ) * (d.roundedDiff / 8)) := by
          rfl
        rw [hxl] at hx
        simp only [List.head?_cons, Option.mem_def, Option.some.injEq] at hx hy
        rw [← hx, ← hy, hf8]
        linarith
    · intro x hx
      rw [hsc] at hx
      have hxhi : x ≤ hi := (qmax?_spec hmax).2 x hx
      have hhiR : hi ≤ d.roundHi + 1 / (2 * 10 ^ (decimalsOf d.magnitude0)) := by
        have := le_npAround hi (decimalsOf d.magnitude0)
        rw [← hrh] at this
        linarith
      have h3 : ((10:ℚ) ^ (decimalsOf d.magnitude0 : ℕ))⁻¹ ≤ (10:ℚ) ^ d.magnitude0 :=
        pow10_decimals_le _
      have h4 : (1:ℚ) / (2 * 10 ^ (decimalsOf d.magnitude0)) ≤ d.roundCorrection / 2 := by
        rw [hcorr]
        have he : (1:ℚ) / (2 * 10 ^ (decimalsOf d.magnitude0)) =
            ((10:ℚ) ^ (decimalsOf d.magnitude0 : ℕ))⁻¹ / 2 := by
          field_simp
          ring
        rw [he]
        linarith
      have hlast : d.binvalues.getLastD 0 = d.roundHi + d.roundCorrection := by
        rw [hbv']
        exact List.getLastD_concat _ _ _
      rw [hlast]
      linarith
  · exact absurd hpos (not_le.mpr hlneg)

/-- Witness for C2 amended at the scores `{0.1, 4.9, 9.8}` (no rounding
correction fires: the minimum 0.1 rounds down to 0). -/
theorem c2_amended_boundary_shape_witness :
    deriveBins [("A", [(1, (1:ℚ)/10), (2, 49/10), (3, 49/5)])] none 0 =
      Except.ok derivC2W ∧
    0 ≤ derivC2W.lowestVal ∧ ¬ derivC2W.lowestVal < derivC2W.roundLo0 ∧
    derivC2W.binvalues.length = 10 ∧ derivC2W.binvalues.Chain' (· < ·) := by
  have h : deriveBins [("A", [(1, (1:ℚ)/10), (2, 49/10), (3, 49/5)])] none 0 =
      Except.ok derivC2W := by
    with_unfolding_all rfl
  have hc := c2_amended_boundary_shape _ none 0 derivC2W h (by norm_num [derivC2W])
    (by norm_num [derivC2W])
  exact ⟨h, by norm_num [derivC2W], by norm_num [derivC2W], hc.1, hc.2.1⟩

/-! ## Claim C3 -/

theorem countResidue_appendGroup (g : List (ℚ × List ℤ)) (v : ℚ) (a x : ℤ) :
    countResidue (appendGroup g v a) x = countResidue g x + (if a = x then 1 else 0) := by
  induction g with
  | nil =>
    by_cases he : a = x <;>
      simp [appendGroup, countResidue, List.count_cons, he]
  | cons p rest ih =>
    by_cases hc : p.1 = v
    · simp only [appendGroup, if_pos hc, countResidue, List.map_cons, List.sum_cons,
        List.count_append, List.count_cons, List.count_nil]
      by_cases he : a = x <;> simp [he] <;> omega
    · simp only [appendGroup, if_neg hc, countResidue, List.map_cons, List.sum_cons]
      rw [show ((rest.map (fun g => g.2.count x)).sum = countResidue rest x) from rfl]
      rw [show ((appendGroup rest v a).map (fun g => g.2.count x)).sum =
        countResidue (appendGroup rest v a) x from rfl, ih]
      omega

theorem countResidue_foldl (bv : List ℚ) (off x : ℤ) (cm : List (ℤ × ℚ)) :
    ∀ acc : List (ℚ × List ℤ),
      countResidue (List.foldl (fun groups p =>
        match firstBin bv p.2 with
        | some iv => appendGroup groups iv.2 (p.1 - off)
        | none => groups) acc cm) x =
      countResidue acc x +
        cm.countP (fun p => (firstBin bv p.2).isSome && (p.1 - off == x)) := by
  induction cm with
  | nil => simp
  | cons p rest ih =>
    intro acc
    rw [List.foldl_cons, List.countP_cons]
    cases hfb : firstBin bv p.2 with
    | none =>
      rw [ih]
      simp [hfb]
    | some iv =>
      rw [ih, countResidue_appendGroup]
      simp only [hfb, Option.isSome_some, Bool.true_and, beq_iff_eq]
      by_cases he : p.1 - off = x <;> simp [he] <;> omega

theorem countP_key_unique (cm : List (ℤ × ℚ)) (r : ℤ) (s : ℚ) (q : ℚ → Bool)
    (hnd : (cm.map Prod.fst).Nodup) (hmem : (r, s) ∈ cm) :
    cm.countP (fun p => q p.2 && (p.1 == r)) = if q s then 1 else 0 := by
  induction cm with
  | nil => cases hmem
  | cons a rest ih =>
    rw [List.map_cons, List.nodup_cons] at hnd
    rw [List.countP_cons]
    rcases List.mem_cons.mp hmem with heq | hmem'
    · have hzero : rest.countP (fun p => q p.2 && (p.1 == r)) = 0 := by
        rw [List.countP_eq_zero]
        intro p hp
        simp only [Bool.and_eq_true, beq_iff_eq, not_and]
        intro _ hpr
        rw [← heq] at hnd
        exact absurd (List.mem_map.mpr ⟨p, hp, hpr⟩) hnd.1
      rw [hzero, ← heq]
      simp
    · have hr : r ∈ rest.map Prod.fst := List.mem_map_of_mem Prod.fst hmem'
      have hane : ¬ ((a.1 == r) = true) := by
        simp only [beq_iff_eq]
        intro he
        refine absurd ?_ hnd.1
        rw [he]
        exact hr
      rw [ih hnd.2 hmem']
      simp [hane]

theorem firstBinFrom_isSome_iff (s : ℚ) (l : List ℚ) :
    ∀ i : ℕ, ((firstBinFrom s i l).isSome = true ↔ ∃ u ∈ l.tail, s < u) := by
  induction l with
  | nil => intro i; simp [firstBinFrom]
  | cons v t ih =>
    intro i
    cases t with
    | nil => simp [firstBinFrom]
    | cons u rest =>
      rw [firstBinFrom]
      by_cases hc : s < u
      · simp only [if_pos hc, Option.isSome_some, List.tail_cons, true_iff]
        exact ⟨u, List.mem_cons_self u rest, hc⟩
      · rw [if_neg hc, ih (i + 1)]
        simp only [List.tail_cons, List.mem_cons]
        constructor
        · rintro ⟨w, hw, hsw⟩
          exact ⟨w, Or.inr hw, hsw⟩
        · rintro ⟨w, hw | hw, hsw⟩
          · exact absurd (hw ▸ hsw) hc
          · exact ⟨w, hw, hsw⟩

theorem firstBinFrom_some_spec (s : ℚ) (l : List ℚ) :
    ∀ (i j : ℕ) (v : ℚ), firstBinFrom s i l = some (j, v) →
      i ≤ j ∧ l[j - i]? = some v ∧ (∃ u, l[j - i + 1]? = some u ∧ s < u) ∧
        ∀ k, i ≤ k → k < j → ∀ u, l[k - i + 1]? = some u → ¬ s < u := by
  induction l with
  | nil => intro i j v h; simp [firstBinFrom] at h
  | cons v0 t ih =>
    intro i j v h
    cases t with
    | nil => simp [firstBinFrom] at h
    | cons u0 rest =>
      rw [firstBinFrom] at h
      by_cases hc : s < u0
      · rw [if_pos hc] at h
        injection h with h
        injection h with hj hv
        subst hj
        subst hv
        refine ⟨le_refl i, by simp, ⟨u0, by simp, hc⟩, ?_⟩
        intro k hik hki
        omega
      · rw [if_neg hc] at h
        obtain ⟨hij, hget, ⟨u, hu, hsu⟩, hleast⟩ := ih (i + 1) j v h
        have hji : j - i = (j - (i + 1)) + 1 := by omega
        refine ⟨by omega, ?_, ⟨u, ?_, hsu⟩, ?_⟩
        · rw [hji]
          simpa using hget
        · rw [show j - i + 1 = (j - (i + 1) + 1) + 1 by omega]
          simpa using hu
        · intro k hik hkj w hw
          by_cases hki : k = i
          · subst hki
            rw [show k - k + 1 = 1 by omega] at hw
            simp only [List.getElem?_cons_succ, List.getElem?_cons_zero,
              Option.some.injEq] at hw
            rw [← hw]
            exact hc
          · have hik' : i + 1 ≤ k := by omega
            refine hleast k hik' hkj w ?_
            rw [show k - i + 1 = (k - (i + 1) + 1) + 1 by omega] at hw
            simpa using hw

/-- C3 counterexample: for the scores `{1 ↦ -8, 2 ↦ 4}` the derived
boundaries are `[-8, -6, -4, -2, 0, 1, 2, 3, 4]` whose final value equals
the maximum score 4; residue 2 (score 4) is strictly below no upper
boundary, so the assignment loop of lines 262-266 leaves it in no bin —
the residue is silently dropped, refuting "no residue is dropped". -/
theorem c3_cex_residue_dropped :
    (deriveBins [("A", [(1, (-8:ℚ)), (2, 4)])] none 0).toOption.map
      (fun d => d.binvalues) = some [-8, -6, -4, -2, 0, 1, 2, 3, 4] ∧
    ((2:ℤ), (4:ℚ)) ∈ [((1:ℤ), (-8:ℚ)), (2, 4)] ∧
    firstBin [-8, -6, -4, -2, 0, 1, 2, 3, 4] 4 = none ∧
    buildScoreGroups [-8, -6, -4, -2, 0, 1, 2, 3, 4] [(1, (-8:ℚ)), (2, 4)] 0 =
      [(-8, [1])] ∧
    countResidue [((-8:ℚ), [(1:ℤ)])] 2 = 0 :=
  ⟨by with_unfolding_all rfl, by simp, by with_unfolding_all rfl,
   by with_unfolding_all rfl, by with_unfolding_all rfl⟩

/-- C3 amended: the assignment loop scans the boundaries in ascending
order (each boundary paired with its successor, so the final sentinel only
ever appears as an upper bound) and puts a residue in the first bin whose
upper boundary its raw score is strictly below; a residue present in the
chain map (with distinct residue keys) is placed in EXACTLY one bin when
its score is below some upper boundary, and in NO bin otherwise — i.e. a
residue whose score reaches or exceeds every upper boundary is silently
dropped, which the derived boundaries make possible in the spans-zero
branch. -/
theorem c3_amended_assignment (bv : List ℚ) (cm : List (ℤ × ℚ)) (off r : ℤ) (s : ℚ)
    (hnd : (cm.map Prod.fst).Nodup) (hmem : (r, s) ∈ cm) :
    (countResidue (buildScoreGroups bv cm off) (r - off) =
      if (firstBin bv s).isSome then 1 else 0) ∧
    ((firstBin bv s).isSome = true ↔ ∃ u ∈ bv.tail, s < u) ∧
    (∀ j v, firstBin bv s = some (j, v) →
      bv[j]? = some v ∧ (∃ u, bv[j + 1]? = some u ∧ s < u) ∧
        ∀ k, k < j → ∀ u, bv[k + 1]? = some u → ¬ s < u) := by
  refine ⟨?_, firstBinFrom_isSome_iff s bv 0, ?_⟩
  · rw [buildScoreGroups, countResidue_foldl bv off (r - off) cm]
    have hpred : (fun p : ℤ × ℚ => (firstBin bv p.2).isSome && (p.1 - off == r - off)) =
        (fun p : ℤ × ℚ => (firstBin bv p.2).isSome && (p.1 == r)) := by
      funext p
      by_cases he : p.1 = r
      · simp [he]
      · have he' : p.1 - off ≠ r - off := by omega
        rw [beq_eq_false_iff_ne.mpr he', beq_eq_false_iff_ne.mpr he]
    rw [hpred, countP_key_unique cm r s (fun sc => (firstBin bv sc).isSome) hnd hmem]
    simp [countResidue]
  · intro j v h
    obtain ⟨_, hget, hup, hleast⟩ := firstBinFrom_some_spec s bv 0 j v h
    refine ⟨by simpa using hget, by simpa using hup, ?_⟩
    intro k hkj u hu
    exact hleast k (Nat.zero_le k) hkj u (by simpa using hu)

/-- Witness for C3 amended at the dropped-residue input: residue 2 with
score 4 appears in zero bins, matching `firstBin = none`. -/
theorem c3_amended_assignment_witness :
    ((([((1:ℤ), (-8:ℚ)), (2, 4)]).map Prod.fst).Nodup) ∧
    ((2:ℤ), (4:ℚ)) ∈ [((1:ℤ), (-8:ℚ)), (2, 4)] ∧
    countResidue
        (buildScoreGroups [-8, -6, -4, -2, 0, 1, 2, 3, 4] [((1:ℤ), (-8:ℚ)), (2, 4)] 0)
        (2 - 0) =
      if (firstBin [-8, -6, -4, -2, 0, 1, 2, 3, 4] (4:ℚ)).isSome then 1 else 0 :=
  ⟨by simp, by simp,
   (c3_amended_assignment [-8, -6, -4, -2, 0, 1, 2, 3, 4] [((1:ℤ), (-8:ℚ)), (2, 4)] 0 2 4
     (by simp) (by simp)).1⟩

/-! ## Claims C7 and C10: structure of the reading loop -/

theorem readStep_eq_applyRow (delim : String) (scorecolumn sitecolumn : ℕ)
    (chaincolumn : Option ℕ) (defaultchain : String) (st : ReadState) (rawline : String) :
    readStep delim scorecolumn sitecolumn chaincolumn defaultchain st rawline =
      applyRow st (rowAction delim scorecolumn sitecolumn chaincolumn defaultchain rawline) := by
  simp only [readStep, rowAction]
  split
  · rfl
  split
  · rfl
  split <;> rename_i hsite
  · rfl
  split <;> rename_i hfl
  · rfl
  split <;> rename_i hscore
  · rfl
  split <;> rename_i hfl2
  · rfl
  split <;> rename_i hchain
  · rfl
  · rfl

theorem readLines_map_proj (delim : String) (sc stc : ℕ) (cc : Option ℕ) (dc : String)
    (ls : List String) : ∀ st st' : ReadState, projRS st = projRS st' →
    (readLines delim sc stc cc dc st ls).map projRS =
      (readLines delim sc stc cc dc st' ls).map projRS := by
  induction ls with
  | nil =>
    intro st st' hp
    simp only [readLines, Except.map]
    rw [hp]
  | cons l rest ih =>
    intro st st' hp
    have hpair : st.table = st'.table ∧ st.foundscores = st'.foundscores := by
      constructor
      · exact congrArg Prod.fst hp
      · exact congrArg Prod.snd hp
    rw [readLines, readLines, readStep_eq_applyRow, readStep_eq_applyRow]
    cases rowAction delim sc stc cc dc l with
    | pass => exact ih st st' hp
    | skip n =>
      apply ih
      simp [applyRow, projRS, hpair.1, hpair.2]
    | abort e => rfl
    | store n chain site score =>
      apply ih
      simp [applyRow, projRS, hpair.1, hpair.2]

theorem readLines_append (delim : String) (sc stc : ℕ) (cc : Option ℕ) (dc : String)
    (l1 l2 : List String) : ∀ st : ReadState,
    readLines delim sc stc cc dc st (l1 ++ l2) =
      match readLines delim sc stc cc dc st l1 with
      | .error e => .error e
      | .ok st' => readLines delim sc stc cc dc st' l2 := by
  induction l1 with
  | nil => intro st; rfl
  | cons l rest ih =>
    intro st
    rw [List.cons_append, readLines, readLines]
    cases readStep delim sc stc cc dc st l with
    | error e => rfl
    | ok st' => exact ih st'

theorem read_result_proj (A B : Except String ReadState)
    (h : A.map projRS = B.map projRS) :
    (match A with
     | .error e => (.error e : Except String ReadResult)
     | .ok st => .ok ⟨st.table, st.linecounter, st.foundscores, st.columnmax,
         [readerHeaderMsg, readerCountMsg] ++
           (if st.foundscores = 0 ∧ st.columnmax < 2 then [readerNoScoresWarnMsg]
            else [])⟩).map projResult =
    (match B with
     | .error e => (.error e : Except String ReadResult)
     | .ok st => .ok ⟨st.table, st.linecounter, st.foundscores, st.columnmax,
         [readerHeaderMsg, readerCountMsg] ++
           (if st.foundscores = 0 ∧ st.columnmax < 2 then [readerNoScoresWarnMsg]
            else [])⟩).map projResult := by
  cases A with
  | error e =>
    cases B with
    | error e' =>
      simp only [Except.map] at h
      injection h with h
      rw [h]
    | ok st => simp [Except.map] at h
  | ok st =>
    cases B with
    | error e => simp [Except.map] at h
    | ok st' =>
      simp only [Except.map] at h
      injection h with h
      exact congrArg Except.ok h

/-! ## Claim C7 -/

/-- C7 counterexample: the first row has the non-float-parsable site
column `"x"`. It is skipped (absent from the table) and the run is not
aborted, but the reader's diagnostic stream holds only the two
unconditional informational lines — no warning is emitted for the skipped
row, refuting the claim that the reader warns about it. -/
theorem c7_cex_skip_without_warning :
    read_generic_data ["x,1.0", "2,3.0"] "," 1 0 none "A" =
      .ok ⟨[("A", [(2, 3)])], 2, 1, 2, [readerHeaderMsg, readerCountMsg]⟩ := by
  with_unfolding_all rfl

/-- C7 amended: a row whose site column is not float-parsable is skipped
SILENTLY (only the line and column counters change) and the run is not
aborted by it: the whole run behaves, in table, found-score count and
abort status, exactly as if the row were absent. -/
theorem c7_amended_silent_skip (delim : String) (sc stc : ℕ) (cc : Option ℕ)
    (dc : String) (pre post : List String) (bad sitecol : String)
    (h1 : ¬ bad.trim = "") (h2 : ¬ bad.trim.front = '#')
    (h3 : (bad.trim.splitOn delim)[stc]? = some sitecol)
    (h4 : pyFloat? sitecol = none) :
    (∀ st : ReadState, readStep delim sc stc cc dc st bad =
      .ok { st with linecounter := st.linecounter + 1,
                    columnmax := max st.columnmax (bad.trim.splitOn delim).length }) ∧
    (read_generic_data (pre ++ bad :: post) delim sc stc cc dc).map projResult =
      (read_generic_data (pre ++ post) delim sc stc cc dc).map projResult := by
  have hact : rowAction delim sc stc cc dc bad =
      .skip (bad.trim.splitOn delim).length := by
    simp [rowAction, h1, h2, h3, h4]
  constructor
  · intro st
    rw [readStep_eq_applyRow, hact]
    rfl
  · unfold read_generic_data
    apply read_result_proj
    rw [readLines_append, readLines_append]
    cases hpre : readLines delim sc stc cc dc initReadState pre with
    | error e => rfl
    | ok st =>
      simp only [readLines]
      rw [readStep_eq_applyRow, hact]
      exact readLines_map_proj delim sc stc cc dc post _ st rfl

/-- Witness for C7 amended: the bad row `"x,1.0"` between two good rows;
the run result projects identically to the run without it. -/
theorem c7_amended_silent_skip_witness :
    ¬("x,1.0".trim = "") ∧ ¬("x,1.0".trim.front = '#') ∧
    ("x,1.0".trim.splitOn ",")[0]? = some "x" ∧ pyFloat? "x" = none ∧
    (read_generic_data (["5,1.5"] ++ "x,1.0" :: ["2,3.0"]) "," 1 0 none "A").map
        projResult =
      (read_generic_data (["5,1.5"] ++ ["2,3.0"]) "," 1 0 none "A").map projResult :=
  ⟨by with_unfolding_all decide, by with_unfolding_all decide, by with_unfolding_all rfl,
   by with_unfolding_all rfl,
   (c7_amended_silent_skip "," 1 0 none "A" ["5,1.5"] ["2,3.0"] "x,1.0" "x"
     (by with_unfolding_all decide) (by with_unfolding_all decide)
     (by with_unfolding_all rfl) (by with_unfolding_all rfl)).2⟩

/-! ## Claim C10 -/

/-- C10: after skipping blank lines and lines starting with `#`, a row is
skipped when and only when its site column does not parse as a float
(only the counters change); when the site parses, the row is either
stored — with the fractional site value truncated to an integer residue
index, e.g. `"3.7"` becomes 3 — or, when the score column does not parse
as a float, the whole run is aborted by an uncaught exception rather
than the row being skipped. -/
theorem c10_reader_skip_iff_and_score_abort (delim : String) (sc stc : ℕ)
    (cc : Option ℕ) (dc : String) (st : ReadState) (l : String) :
    (l.trim = "" → readStep delim sc stc cc dc st l = .ok st) ∧
    (¬ l.trim = "" → l.trim.front = '#' → readStep delim sc stc cc dc st l = .ok st) ∧
    (∀ sitecol, ¬ l.trim = "" → ¬ l.trim.front = '#' →
      (l.trim.splitOn delim)[stc]? = some sitecol →
      (pyFloat? sitecol = none →
        readStep delim sc stc cc dc st l =
          .ok { st with linecounter := st.linecounter + 1,
                        columnmax := max st.columnmax (l.trim.splitOn delim).length }) ∧
      (∀ q, pyFloat? sitecol = some q →
        (∀ scorecol, (l.trim.splitOn delim)[sc]? = some scorecol →
          pyFloat? scorecol = none →
          readStep delim sc stc cc dc st l = .error floatErrMsg) ∧
        (∀ scorecol v ch, (l.trim.splitOn delim)[sc]? = some scorecol →
          pyFloat? scorecol = some v →
          chainOf (l.trim.splitOn delim) cc dc = some ch →
          readStep delim sc stc cc dc st l =
            .ok { st with linecounter := st.linecounter + 1,
                          columnmax := max st.columnmax (l.trim.splitOn delim).length,
                          table := upsertChain st.table ch (truncQ q) v,
                          foundscores := st.foundscores + 1 }))) ∧
    (∀ (pre post : List String) (st' : ReadState) (e : String),
      readLines delim sc stc cc dc initReadState pre = .ok st' →
      readStep delim sc stc cc dc st' l = .error e →
      read_generic_data (pre ++ l :: post) delim sc stc cc dc = .error e) := by
  refine ⟨?_, ?_, ?_, ?_⟩
  · intro h
    rw [readStep_eq_applyRow]
    have hact : rowAction delim sc stc cc dc l = .pass := by
      simp [rowAction, h]
    rw [hact]
    rfl
  · intro h1 h2
    rw [readStep_eq_applyRow]
    have hact : rowAction delim sc stc cc dc l = .pass := by
      simp [rowAction, h1, h2]
    rw [hact]
    rfl
  · intro sitecol h1 h2 h3
    constructor
    · intro h4
      rw [readStep_eq_applyRow]
      have hact : rowAction delim sc stc cc dc l =
          .skip (l.trim.splitOn delim).length := by
        simp [rowAction, h1, h2, h3, h4]
      rw [hact]
      rfl
    · intro q hq
      constructor
      · intro scorecol h5 h6
        rw [readStep_eq_applyRow]
        have hact : rowAction delim sc stc cc dc l = .abort floatErrMsg := by
          simp [rowAction, h1, h2, h3, hq, h5, h6]
        rw [hact]
        rfl
      · intro scorecol v ch h5 h6 h7
        rw [readStep_eq_applyRow]
        have hact : rowAction delim sc stc cc dc l =
            .store (l.trim.splitOn delim).length ch (truncQ q) v := by
          simp [rowAction, h1, h2, h3, hq, h5, h6, h7]
        rw [hact]
        rfl
  · intro pre post st' e hpre hstep
    unfold read_generic_data
    rw [readLines_append, hpre]
    simp only [readLines]
    rw [hstep]

/-- Witness for C10: on row `"3.7,5.0"` the site cell `"3.7"` parses to
37/10 and is truncated to residue index 3, and the row is stored. -/
theorem c10_reader_witness :
    pyFloat? "3.7" = some (37/10) ∧ truncQ (37/10) = 3 ∧
    readStep "," 1 0 none "A" initReadState "3.7,5.0" =
      .ok ⟨[("A", [(3, 5)])], 1, 1, 2⟩ := by
  refine ⟨by with_unfolding_all rfl, by with_unfolding_all rfl, ?_⟩
  have hc := ((c10_reader_skip_iff_and_score_abort "," 1 0 none "A" initReadState
      "3.7,5.0").2.2.1 "3.7" (by with_unfolding_all decide) (by with_unfolding_all decide)
      (by with_unfolding_all rfl)).2 (37/10) (by with_unfolding_all rfl)
  have hstore := hc.2 "5.0" 5 "A" (by with_unfolding_all rfl) (by with_unfolding_all rfl)
    (by with_unfolding_all rfl)
  rw [hstore]
  with_unfolding_all rfl
